import Mathlib

/-!
# Verification of the eventop-s/sdk tour-orchestration core

A shallow embedding of the guided-tour SDK (feature registry, AI step
merge/expansion, route preview, element/route waiting, conversation
history, and the tour runner's pause/resume state machine), together
with theorems settling the frozen claims about it.

JavaScript field values are modelled by `JStr` (string-valued fields:
absent/undefined, null, or a string) and `JVal` (object- or
array-valued fields).  JS truthiness is modelled exactly for these
values: `undefined`, `null` and the empty string are falsy, every
other string is truthy, and any object/array value is truthy.
Function-valued fields (`validate`, `screen.check`, …) are carried as
opaque numeric handles, since the embedded code only copies them.
-/

/-- A JS string-valued property: the key may be absent (`undef`),
explicitly `null`, or hold a string. -/
inductive JStr where
  | undef : JStr
  | null : JStr
  | str (s : String) : JStr
deriving DecidableEq, Repr

/-- JS truthiness of a string-valued property: `undefined`, `null`
and `""` are falsy. -/
def JStr.truthy : JStr → Bool
  | .str s => s ≠ ""
  | _ => false

/-- JS `a || b` on string-valued properties. -/
def JStr.orJs (a b : JStr) : JStr := if a.truthy then a else b

/-- JS `a || null` on string-valued properties. -/
def JStr.orNullJs (a : JStr) : JStr := if a.truthy then a else .null

/-- JS template-literal rendering of a value (`undefined` and `null`
print as their names, as in a JS template string). -/
def JStr.render : JStr → String
  | .undef => "undefined"
  | .null => "null"
  | .str s => s

/-- A JS object- or array-valued property: absent, `null`, or a value.
Any actual object or array (including the empty array) is truthy. -/
inductive JVal (α : Type) where
  | undef : JVal α
  | null : JVal α
  | val (a : α) : JVal α
deriving DecidableEq, Repr

/-- JS truthiness of an object-valued property. -/
def JVal.truthy : JVal α → Bool
  | .val _ => true
  | _ => false

/-- JS `a || b` on object-valued properties. -/
def JVal.orJs (a b : JVal α) : JVal α := if a.truthy then a else b

/-- JS `a || null` on object-valued properties. -/
def JVal.orNullJs (a : JVal α) : JVal α := if a.truthy then a else .null

/-- Spread-override semantics for `{ key: dflt, ...step }`: the step's
own value wins whenever the key is present on the step (even when it
is `null`); the default is used only when the key is absent. -/
def jsSpread (dflt v : JStr) : JStr := if v = .undef then dflt else v

/-- Spread-override semantics for object-valued keys. -/
def jsSpreadV (dflt : JVal α) : JVal α → JVal α
  | .undef => dflt
  | v => v

/-- An `advanceOn` descriptor: `{ selector, event, delay }`
(src/src/core/tour.js `wireAdvanceOn`). -/
structure AdvanceOn where
  selector : JStr
  event : JStr
  delayMs : JVal Nat
deriving DecidableEq, Repr

/-- One entry of a feature's `flow` array, as read by
`expandFlowSteps` (src/src/core/ai.js lines 241-258). -/
structure FlowEntry where
  selector : JStr
  waitFor : JStr
  advanceOn : JVal AdvanceOn
deriving DecidableEq, Repr

/-- A step object as it travels through the tour pipeline: AI-proposed
steps, merged steps and flow-expanded steps are all JS objects carrying
(subsets of) these keys.  `parentId` embeds `_parentId`,
`highlightStyle` embeds `_highlightStyle`; function-valued fields
(`validate`, `screen`) are opaque handles. -/
structure StepR where
  id : JStr := .undef
  title : JStr := .undef
  text : JStr := .undef
  selector : JStr := .undef
  position : JStr := .undef
  parentId : JStr := .undef
  waitFor : JStr := .undef
  advanceOn : JVal AdvanceOn := .undef
  validate : JVal Nat := .undef
  screen : JVal Nat := .undef
  flow : JVal (List FlowEntry) := .undef
  route : JStr := .undef
  highlightStyle : JStr := .undef
deriving DecidableEq, Repr

/-- A configured feature as read by the merge/expansion code
(`state.config.features` entries). -/
structure Feature where
  id : JStr := .undef
  name : JStr := .undef
  description : JStr := .undef
  selector : JStr := .undef
  route : JStr := .undef
  waitFor : JStr := .undef
  advanceOn : JVal AdvanceOn := .undef
  validate : JVal Nat := .undef
  screen : JVal Nat := .undef
  flow : JVal (List FlowEntry) := .undef
deriving DecidableEq, Repr

/-- `features.find(f => f.id === key)` — JS `===` on the id property
(`undefined === undefined` is true, `null === undefined` is false,
strings compare by value), matching `JStr` equality. -/
def findFeature (features : List Feature) (key : JStr) : Option Feature :=
  features.find? (fun f => f.id == key)

/-- The body of both merge variants: the object literal
`{ waitFor: f.waitFor || null, …, ...step, selector: f.selector || step.selector }`.
`withRoute` is true for the modular variant (src/src/core/tour.js),
which additionally defaults `route: feature.route || null`. -/
def mergeRecord (feature : Feature) (step : StepR) (withRoute : Bool) : StepR :=
  { id := step.id
    title := step.title
    text := step.text
    position := step.position
    parentId := step.parentId
    highlightStyle := step.highlightStyle
    waitFor := jsSpread feature.waitFor.orNullJs step.waitFor
    advanceOn := jsSpreadV feature.advanceOn.orNullJs step.advanceOn
    validate := jsSpreadV feature.validate.orNullJs step.validate
    screen := jsSpreadV feature.screen.orNullJs step.screen
    flow := jsSpreadV feature.flow.orNullJs step.flow
    route := if withRoute then jsSpread feature.route.orNullJs step.route else step.route
    selector := feature.selector.orJs step.selector }

/-- `mergeWithFeature` from the modular variant
(src/src/core/tour.js lines 96-110): looks the feature up by
`step._parentId || step.id`; the feature map always wins for
`selector`.  `config = none` models a missing `state.config` or
missing `features` array. -/
def mergeWithFeature (config : Option (List Feature)) (step : StepR) : StepR :=
  match config with
  | none => step
  | some features =>
    match findFeature features (step.parentId.orJs step.id) with
    | none => step
    | some feature => mergeRecord feature step true

/-- `mergeWithFeature` from the monolithic variant
(src/unnamed/part_004 lines 362-375): looks the feature up by
`step.id` only and has no `route` default. -/
def mergeWithFeatureMono (config : Option (List Feature)) (step : StepR) : StepR :=
  match config with
  | none => step
  | some features =>
    match findFeature features step.id with
    | none => step
    | some feature => mergeRecord feature step false

/-- The step object built for flow entry `i` (0-based) of a flow of
length `total` (src/src/core/ai.js lines 244-257). -/
def mkFlowStep (aiStep : StepR) (total i : Nat) (entry : FlowEntry) : StepR :=
  { id := .str (aiStep.id.render ++ "-flow-" ++ toString i)
    title := if i = 0 then aiStep.title
      else .str (aiStep.title.render ++ " (" ++ toString (i + 1) ++ "/" ++ toString total ++ ")")
    text := if i = 0 then aiStep.text
      else .str ("Step " ++ toString (i + 1) ++ " of " ++ toString total ++
        ": continue with the action highlighted below.")
    position := aiStep.position.orJs (.str "bottom")
    selector := entry.selector.orNullJs
    waitFor := entry.waitFor.orNullJs
    advanceOn := entry.advanceOn.orNullJs
    parentId := aiStep.id }

/-- `feature.flow.map((entry, i) => …)` rendered as an index-carrying
recursion. -/
def expandEntries (aiStep : StepR) (total : Nat) : Nat → List FlowEntry → List StepR
  | _, [] => []
  | i, entry :: rest => mkFlowStep aiStep total i entry :: expandEntries aiStep total (i + 1) rest

/-- `expandFlowSteps(aiStep, feature)` (src/src/core/ai.js lines
241-258): a feature without a non-empty `flow` returns the AI step
unchanged, wrapped in a one-element array. -/
def expandFlowSteps (aiStep : StepR) (feature : Feature) : List StepR :=
  match feature.flow with
  | .val flow => if flow.isEmpty then [aiStep] else expandEntries aiStep flow.length 0 flow
  | _ => [aiStep]

/-! ## Navigation: route preview and waiting (src/src/core/ai.js, navigation section) -/

/-- One entry of the pre-tour travel plan returned by
`previewRoutesNeeded`. -/
structure RoutePair where
  route : String
  featureName : JStr
deriving DecidableEq, Repr

/-- The `aiSteps.forEach` loop of `previewRoutesNeeded` (lines
174-188): `seen` models the JS `Set` (initialised with the current
route) and `ordered` is accumulated in visit order. -/
def previewGo (config : Option (List Feature)) : List String → List StepR → List RoutePair
  | _, [] => []
  | seen, step :: rest =>
    match config with
    | none => previewGo config seen rest
    | some features =>
      match findFeature features step.id with
      | none => previewGo config seen rest
      | some f =>
        match f.route with
        | .str r =>
          if r ≠ "" ∧ r ∉ seen then
            ⟨r, f.name⟩ :: previewGo config (r :: seen) rest
          else previewGo config seen rest
        | _ => previewGo config seen rest

/-- `previewRoutesNeeded(aiSteps)` (src/src/core/ai.js lines 174-188):
walks the AI steps in order, collecting each referenced feature's
truthy `route` with its name, skipping routes already seen (the
current route counts as seen from the start). -/
def previewRoutesNeeded (config : Option (List Feature)) (currentRoute : String)
    (aiSteps : List StepR) : List RoutePair :=
  previewGo config [currentRoute] aiSteps

/-- The routes the AI steps reference, in step order with
multiplicity: each step whose feature lookup succeeds and whose
feature has a truthy `route` contributes that route. -/
def referencedRoutes (config : Option (List Feature)) (aiSteps : List StepR) : List String :=
  aiSteps.filterMap fun step =>
    match config with
    | none => none
    | some features =>
      match findFeature features step.id with
      | none => none
      | some f =>
        match f.route with
        | .str r => if r ≠ "" then some r else none
        | _ => none

/-- First-occurrence deduplication: keeps the first occurrence of each
route not already in `seen`, dropping later duplicates. -/
def dedupKeepFirst (seen : List String) : List String → List String
  | [] => []
  | r :: rs => if r ∈ seen then dedupKeepFirst seen rs else r :: dedupKeepFirst (r :: seen) rs

/-- Model of `waitForElement(selector, timeout)` (src/src/core/ai.js
lines 109-130).  `present t` says whether `document.querySelector`
finds the element at time `t` (ms); a change of `present` corresponds
to a DOM mutation, at which the observer re-checks.  The result is the
time at which the promise resolves, paired with whether the timeout
warning was logged.  The promise executor only ever calls `resolve`. -/
def waitForElementModel (present : Nat → Bool) (timeout : Nat) : Nat × Bool :=
  if present 0 then (0, false)
  else
    match (List.range timeout).find? (fun t => present t) with
    | some t => (t, false)
    | none => (timeout, true)

/-- Model of `waitForRouteChange(targetRoute, timeout)`
(src/src/core/ai.js lines 79-99).  `pathname t` is
`window.location.pathname` at time `t`; the poll runs every 50 ms and
the timeout timer clears it at `timeout`. -/
def waitForRouteChangeModel (pathname : Nat → String) (targetRoute : String)
    (timeout : Nat) : Nat × Bool :=
  if pathname 0 = targetRoute then (0, false)
  else
    match (List.range timeout).find? (fun t => 0 < t && t % 50 = 0 && pathname t = targetRoute) with
    | some t => (t, false)
    | none => (timeout, true)

/-! ## AI orchestration (src/src/core/ai.js lines 14-53) -/

/-- A JSON value, as produced by `JSON.parse`. -/
inductive JsonVal where
  | jnull : JsonVal
  | jbool (b : Bool) : JsonVal
  | jnum (q : Int) : JsonVal
  | jstr (s : String) : JsonVal
  | jarr (l : List JsonVal) : JsonVal
  | jobj (fields : List (String × JsonVal)) : JsonVal

/-- Property lookup on a parsed JSON object; with duplicate keys
`JSON.parse` keeps the last occurrence. -/
def JsonVal.getField (v : JsonVal) (k : String) : Option JsonVal :=
  match v with
  | .jobj fields => ((fields.reverse).find? (fun p => p.1 == k)).map (·.2)
  | _ => none

/-- The shape validation of `parseAIResponse`:
`typeof p.message === 'string' && Array.isArray(p.steps)`.  Property
access on non-objects yields `undefined` (and on `null` throws — both
land in the same catch), so every non-conforming value fails. -/
def shapeOk (v : JsonVal) : Bool :=
  (match v.getField "message" with | some (.jstr _) => true | _ => false) &&
  (match v.getField "steps" with | some (.jarr _) => true | _ => false)

/-- The `\s` class of the fence-stripping regexes (ASCII part). -/
def jsWhite (c : Char) : Bool :=
  c = ' ' || c = '\t' || c = '\n' || c = '\r' || c = '\x0b' || c = '\x0c'

/-- Case-insensitive literal prefix match, returning the remainder. -/
def stripPrefixCI : List Char → List Char → Option (List Char)
  | [], cs => some cs
  | _ :: _, [] => none
  | p :: ps, c :: cs => if p.toLower = c.toLower then stripPrefixCI ps cs else none

/-- `.replace(/^FENCE\s*?/i, '')` for a literal fence at the start:
if the fence matches case-insensitively, it and the following
whitespace are removed; otherwise the string is unchanged. -/
def replaceLeadFence (fence : String) (cs : List Char) : List Char :=
  match stripPrefixCI fence.data cs with
  | some rest => rest.dropWhile jsWhite
  | none => cs

/-- `.replace(/```\s*$/i, '')`: removes a trailing fence followed only
by whitespace. -/
def replaceTrailFence (cs : List Char) : List Char :=
  match stripPrefixCI "```".data ((cs.reverse).dropWhile jsWhite) with
  | some rest => rest.reverse
  | none => cs

/-- JS `String.prototype.trim`. -/
def jsTrim (cs : List Char) : List Char :=
  ((cs.dropWhile jsWhite).reverse.dropWhile jsWhite).reverse

/-- The `clean` pipeline of `parseAIResponse` (src/src/core/ai.js
lines 15-19): strip a leading code fence (with or without a `json`
tag), strip a trailing fence, trim. -/
def stripFences (raw : String) : String :=
  String.mk (jsTrim (replaceTrailFence (replaceLeadFence "```" (replaceLeadFence "```json" raw.data))))

/-- The user-safe error message thrown on any parse or shape failure. -/
def unreadableMsg : String := "AI returned an unreadable response. Please try again."

/-- `parseAIResponse(raw)` (src/src/core/ai.js lines 14-31),
parameterised by the host's `JSON.parse` (`none` models a parse
exception).  Any parse or shape failure is caught and replaced by the
single user-safe error; the function touches no other state. -/
def parseAIResponse (jsonParse : String → Option JsonVal) (raw : String) :
    Except String JsonVal :=
  match jsonParse (stripFences raw) with
  | none => .error unreadableMsg
  | some p => if shapeOk p then .ok p else .error unreadableMsg

/-- One `{role, content}` turn of the conversation history. -/
structure ChatMsg where
  role : String
  content : String
deriving DecidableEq, Repr

/-- What the injected provider resolves with: the parsed
`{message, steps}` object. -/
structure ProviderResult where
  message : String
  steps : List JsonVal

/-- `callAI(userMessage)` (src/src/core/ai.js lines 40-53): the
outgoing call uses a copy of the history extended with the user turn;
the stored history is only replaced after the provider resolves, by
appending exactly the user turn and the assistant turn.  A provider
rejection (`.error`) propagates before `setMessages` runs, leaving the
history unchanged.  The result pairs the new history with the
outcome. -/
def callAI (provider : List ChatMsg → Except String ProviderResult)
    (messages : List ChatMsg) (userMessage : String) :
    List ChatMsg × Except String ProviderResult :=
  match provider (messages ++ [⟨"user", userMessage⟩]) with
  | .error e => (messages, .error e)
  | .ok result =>
    (messages ++ [⟨"user", userMessage⟩, ⟨"assistant", result.message⟩], .ok result)

/-! ## Feature registry with ghost entries (src/unnamed/part_005 lines 48-209)

The ghosting registry variant: unregistering downgrades an entry to a
ghost (metadata kept, live locators nulled) instead of deleting it;
this is the variant whose `_ghost` flag the prompt builder
(src/src/core/prompt.js) consumes. -/

/-- A JS `Map` as an insertion-ordered association list.
`Map.prototype.set` overwrites the value of an existing key in place
and appends new keys at the end. -/
def mapSet (m : List (String × β)) (k : String) (v : β) : List (String × β) :=
  if m.any (fun p => p.1 == k) then m.map (fun p => if p.1 == k then (k, v) else p)
  else m ++ [(k, v)]

/-- `Map.prototype.get` (`none` for a missing key). -/
def mapGet (m : List (String × β)) (k : String) : Option β :=
  (m.find? (fun p => p.1 == k)).map (·.2)

/-- `Map.prototype.delete`. -/
def mapDelete (m : List (String × β)) (k : String) : List (String × β) :=
  m.filter (fun p => !(p.1 == k))

/-- The feature data passed to `registerFeature` (what `EventopTarget`
supplies on mount). -/
structure FeatureInput where
  id : String
  name : JStr := .undef
  description : JStr := .undef
  route : JStr := .undef
  selector : JStr := .undef
  navigate : JVal Nat := .undef
  navigateWaitFor : JStr := .undef
  waitFor : JStr := .undef
  advanceOn : JVal AdvanceOn := .undef
deriving DecidableEq, Repr

/-- A stored registry entry: the registered data plus the `_ghost`
flag and `_registeredAt` timestamp. -/
structure RegFeature where
  id : String
  name : JStr
  description : JStr
  route : JStr
  selector : JStr
  navigate : JVal Nat
  navigateWaitFor : JStr
  waitFor : JStr
  advanceOn : JVal AdvanceOn
  ghost : Bool
  registeredAt : Nat
deriving DecidableEq, Repr

/-- A stored flow step: `{...stepData, index, parentStep, key}`. -/
structure FlowStepData where
  selector : JStr := .undef
  waitFor : JStr := .undef
  advanceOn : JVal AdvanceOn := .undef
  index : Nat := 0
  parentStep : Option Nat := none
  key : String := ""
deriving DecidableEq, Repr

/-- The registry's mutable state: the feature map and the per-feature
flow-step maps. -/
structure Registry where
  features : List (String × RegFeature) := []
  flowSteps : List (String × List (String × FlowStepData)) := []
deriving Repr

/-- `registerFeature(feature)` (part_005 lines 61-70): upserts a live
entry — `{...feature, _ghost: false, _registeredAt: Date.now()}` —
overwriting any prior (live or ghost) entry for that id. -/
def registerFeature (reg : Registry) (f : FeatureInput) (now : Nat) : Registry :=
  let entry : RegFeature :=
    { id := f.id, name := f.name, description := f.description, route := f.route,
      selector := f.selector, navigate := f.navigate, navigateWaitFor := f.navigateWaitFor,
      waitFor := f.waitFor, advanceOn := f.advanceOn, ghost := false, registeredAt := now }
  { reg with features := mapSet reg.features f.id entry }

/-- `unregisterFeature(id)` (part_005 lines 72-97): no-op when absent;
otherwise downgrades to a ghost (metadata kept, `selector`,
`advanceOn` and `waitFor` nulled, `_ghost: true`) and prunes the
feature's flow steps. -/
def unregisterFeature (reg : Registry) (id : String) : Registry :=
  match mapGet reg.features id with
  | none => reg
  | some f =>
    let ghostEntry : RegFeature :=
      { id := f.id, name := f.name, description := f.description,
        route := f.route.orNullJs, navigate := f.navigate.orNullJs,
        navigateWaitFor := f.navigateWaitFor.orNullJs,
        registeredAt := f.registeredAt,
        selector := .null, advanceOn := .null, waitFor := .null, ghost := true }
    { features := mapSet reg.features id ghostEntry,
      flowSteps := mapDelete reg.flowSteps id }

/-- The step key: `parentStep != null ? parentStep + "." + index : String(index)`. -/
def stepKey (index : Nat) (parentStep : Option Nat) : String :=
  match parentStep with
  | some p => toString p ++ "." ++ toString index
  | none => toString index

/-- `registerStep(featureId, index, parentStep, stepData)`
(part_005 lines 102-114). -/
def registerStep (reg : Registry) (featureId : String) (index : Nat)
    (parentStep : Option Nat) (stepData : FlowStepData) : Registry :=
  let m := (mapGet reg.flowSteps featureId).getD []
  let k := stepKey index parentStep
  let stored : FlowStepData :=
    { stepData with index := index, parentStep := parentStep, key := k }
  { reg with flowSteps := mapSet reg.flowSteps featureId (mapSet m k stored) }

/-- `unregisterStep(featureId, index, parentStep)` (part_005 lines
116-123): deletes the keyed entry; an emptied per-feature map is
removed entirely. -/
def unregisterStep (reg : Registry) (featureId : String) (index : Nat)
    (parentStep : Option Nat) : Registry :=
  match mapGet reg.flowSteps featureId with
  | none => reg
  | some m =>
    let m' := mapDelete m (stepKey index parentStep)
    { reg with flowSteps :=
        if m'.isEmpty then mapDelete reg.flowSteps featureId
        else mapSet reg.flowSteps featureId m' }

/-- Ascending stable sort by `index` (`.sort((a, b) => a.index - b.index)`). -/
def sortByIndex (l : List FlowStepData) : List FlowStepData :=
  l.mergeSort (fun a b => a.index ≤ b.index)

/-- `buildFlow(featureId)` (part_005 lines 128-148): top-level steps in
index order, each followed by its direct children in index order;
`null` when empty. -/
def buildFlow (reg : Registry) (featureId : String) : Option (List FlowStepData) :=
  match mapGet reg.flowSteps featureId with
  | none => none
  | some m =>
    if m.isEmpty then none
    else
      let allSteps := m.map (·.2)
      let topLevel := sortByIndex (allSteps.filter (fun s => s.parentStep = none))
      let result := topLevel.flatMap (fun step =>
        step :: sortByIndex (allSteps.filter (fun s => s.parentStep = some step.index)))
      if result.length > 0 then some result else none

/-- One record of the array `snapshot()` returns; the `screen` shim is
inlined as `screen*` fields, with `screenCheck` the value
`features.get(id)?._ghost !== true` takes at snapshot time. -/
structure SnapshotEntry where
  id : String
  name : JStr
  description : JStr
  selector : JStr
  route : JStr
  advanceOn : JVal AdvanceOn
  waitFor : JStr
  ghost : Bool
  flow : Option (List FlowStepData)
  screenId : String
  screenCheck : Bool
  screenNavigate : JVal Nat
  screenWaitFor : JStr
deriving DecidableEq, Repr

/-- `snapshot()` (part_005 lines 161-185): every entry, live or ghost,
with nullable fields normalised by `|| null` and the computed `flow`
key present only when non-null. -/
def snapshot (reg : Registry) : List SnapshotEntry :=
  reg.features.map fun p =>
    let f := p.2
    { id := f.id, name := f.name, description := f.description
      selector := f.selector.orNullJs, route := f.route.orNullJs
      advanceOn := f.advanceOn.orNullJs, waitFor := f.waitFor.orNullJs
      ghost := f.ghost
      flow := buildFlow reg f.id
      screenId := f.id
      screenCheck := (match mapGet reg.features f.id with
        | some g => !g.ghost
        | none => true)
      screenNavigate := f.navigate.orNullJs
      screenWaitFor := f.navigateWaitFor.orJs f.selector.orNullJs }

/-- `isRegistered(id)` (part_005 lines 193-196): true only for a live
(non-ghost) entry. -/
def isRegistered (reg : Registry) (id : String) : Bool :=
  match mapGet reg.features id with
  | some f => !f.ghost
  | none => false

/-! ## Tour runner and shared state (src/src/core/state.js, tour.js, core.js)

The shared mutable state (`state.js`) and the presenter interaction are
modelled as explicit state passing.  Presenter (Shepherd) tours live in
an arena `sessions`; `tour` is `state.tour` (the index of the active
session, `none` for `null`).  Cleanup callbacks are identified by
numeric ids: `cleanups` is the pending list (`state.cleanups`) and
`runLog` records every invocation ever made, in order, so "ran exactly
once" is observable.  `tour.cancel()` and `tour.complete()` trigger
their registered handlers synchronously, as Shepherd does; the
`cancel` handler can still read the current step, which Shepherd nulls
only after the event has fired. -/

/-- One presenter (Shepherd) tour: its registered steps, current step
index, and whether it is active. -/
structure Session where
  steps : List StepR
  current : Option Nat
  active : Bool
deriving DecidableEq, Repr

/-- The SDK's shared mutable state (src/src/core/state.js). -/
structure SDKState where
  config : Option (List Feature) := none
  sessions : List Session := []
  tour : Option Nat := none
  pausedSteps : Option (List StepR) := none
  pausedIndex : Nat := 0
  cleanups : List Nat := []
  runLog : List Nat := []
  nextCleanupId : Nat := 0
deriving DecidableEq, Repr

/-- `state.runAndClearCleanups()` (src/src/core/state.js lines 52-55):
every pending callback runs once, then the list is cleared. -/
def runAndClearCleanups (st : SDKState) : SDKState :=
  { st with runLog := st.runLog ++ st.cleanups, cleanups := [] }

/-- The id of the Shepherd step built for `step` at position `i`:
`step.id || 'sai-step-' + i` (src/src/core/tour.js line 285). -/
def shepId (s : StepR) (i : Nat) : JStr :=
  s.id.orJs (.str ("sai-step-" ++ toString i))

/-- JS `Array.prototype.findIndex`, with `none` for `-1`. -/
def findIdxJs (p : α → Bool) : List α → Option Nat
  | [] => none
  | a :: l => if p a then some 0 else (findIdxJs p l).map (· + 1)

/-- The `tour.on('cancel')` handler registered by `runTour`
(src/src/core/tour.js lines 324-341): recover the current index by
searching `expandedSteps` for the current Shepherd step's id
(`Math.max(0, -1) = 0` when not found, `0` when there is no current
step), run and clear the cleanups, store the paused snapshot, and
clear `state.tour`.  (`showResumeButton` only touches the DOM.) -/
def cancelIdx (sess : Session) : Int :=
  match sess.current with
  | none => 0
  | some i =>
    match sess.steps.get? i with
    | none => 0
    | some cur =>
      match findIdxJs (fun s => s.id == shepId cur i) sess.steps with
      | some j => (j : Int)
      | none => -1

/-- The state effects of the handler: run and clear the cleanups,
store the paused snapshot with `Math.max(0, currentIdx)`, clear
`state.tour`. -/
def onCancel (sess : Session) (st : SDKState) : SDKState :=
  let st1 := runAndClearCleanups st
  { st1 with pausedSteps := some sess.steps,
             pausedIndex := (max 0 (cancelIdx sess)).toNat,
             tour := none }

/-- `tour.cancel()` on the session at arena index `i`: Shepherd marks
the tour inactive and synchronously fires the `cancel` handler. -/
def cancelShepherd (i : Nat) (st : SDKState) : SDKState :=
  match st.sessions.get? i with
  | none => st
  | some sess =>
    let deactivated := st.sessions.set i { sess with active := false, current := none }
    let st1 := { st with sessions := deactivated }
    onCancel sess st1

/-- `tour.complete()` on the session at arena index `i`: fires the
`complete` handler (src/src/core/tour.js lines 312-321), which runs
the cleanups and clears the paused snapshot and `state.tour`. -/
def completeShepherd (i : Nat) (st : SDKState) : SDKState :=
  match st.sessions.get? i with
  | none => st
  | some sess =>
    let deactivated := st.sessions.set i { sess with active := false, current := none }
    let st1 := { st with sessions := deactivated }
    let st2 := runAndClearCleanups st1
    { st2 with pausedSteps := none, pausedIndex := 0, tour := none }

/-- `{ ...mergeWithFeature(step), _highlightStyle: highlightStyle }`
(src/src/core/tour.js lines 239-242). -/
def processStep (config : Option (List Feature)) (hl : JStr) (step : StepR) : StepR :=
  { mergeWithFeature config step with highlightStyle := hl }

/-- The flow-expansion arm of `runTour` (src/src/core/tour.js lines
249-252): re-find the feature by `step.id` and expand, or keep the
step as a singleton. -/
def expandAgainst (config : Option (List Feature)) (step : StepR) : List StepR :=
  match config with
  | none => [step]
  | some features =>
    match findFeature features step.id with
    | none => [step]
    | some f => expandFlowSteps step f

/-- `expandedSteps` as computed by `runTour`: merge every step (with
the highlight style attached), then flat-map flow expansion. -/
def buildExpandedSteps (config : Option (List Feature)) (hl : JStr)
    (steps : List StepR) : List StepR :=
  (steps.map (processStep config hl)).flatMap (expandAgainst config)

/-- `!!(step.advanceOn?.selector && step.advanceOn?.event)`
(src/src/core/tour.js line 268). -/
def hasAuto (s : StepR) : Bool :=
  match s.advanceOn with
  | .val a => a.selector.truthy && a.event.truthy
  | _ => false

/-- `wireAdvanceOn` registers one document-level listener per
auto-advancing step and pushes its removal onto the cleanup list
(src/src/core/tour.js lines 182-183); fresh ids identify the new
callbacks. -/
def wireCleanups (st : SDKState) (steps : List StepR) : SDKState :=
  let n := (steps.filter hasAuto).length
  { st with cleanups := st.cleanups ++ (List.range n).map (fun j => st.nextCleanupId + j),
            nextCleanupId := st.nextCleanupId + n }

/-- `runTour(steps, options)` (src/src/core/tour.js lines 224-344):
cancel any running presenter tour (which fires its `cancel` handler),
run and clear pending cleanups, clear `state.tour`; stop on an empty
step list; otherwise merge, expand, wire the auto-advance cleanups,
create the new presenter session and start it on its first step.
(`ensureShepherd`, `ensureOnCorrectScreen` and all rendering only
touch the DOM and are omitted.) -/
def runTour (st0 : SDKState) (steps : List StepR) (highlightStyle : JStr) : SDKState :=
  let st1 := match st0.tour with
    | some i => cancelShepherd i st0
    | none => st0
  let st2 := runAndClearCleanups st1
  let st3 := { st2 with tour := none }
  if steps.isEmpty then st3
  else
    let expanded := buildExpandedSteps st3.config highlightStyle steps
    let st4 := wireCleanups st3 expanded
    let sess : Session := { steps := expanded, current := some 0, active := true }
    { st4 with sessions := st4.sessions ++ [sess], tour := some st4.sessions.length }

/-- The user clicking the `⏸ Pause` button: its action is
`tour.cancel()` (src/src/core/tour.js lines 278-282). -/
def pressPause (st : SDKState) : SDKState :=
  match st.tour with
  | some i => cancelShepherd i st
  | none => st

/-- `cancelTour()` (src/src/core/core.js lines 117-126): clear the
paused snapshot, cancel a running presenter tour (firing its `cancel`
handler), run and clear cleanups, clear `state.tour`. -/
def cancelTour (st0 : SDKState) : SDKState :=
  let st1 := { st0 with pausedSteps := none, pausedIndex := 0 }
  let st2 := match st1.tour with
    | some i => cancelShepherd i st1
    | none => st1
  let st3 := runAndClearCleanups st2
  { st3 with tour := none }

/-- `resumeTour()` (src/src/core/core.js lines 129-139): no-op without
a snapshot; otherwise clear the snapshot first, then re-run the stored
steps sliced from the resume index (with default options). -/
def resumeTour (st : SDKState) : SDKState :=
  match st.pausedSteps with
  | none => st
  | some steps =>
    let idx := st.pausedIndex
    let st1 := { st with pausedSteps := none, pausedIndex := 0 }
    runTour st1 (steps.drop idx) (.str "default")

/-- `tour.next()`: advance the current step, completing the tour past
the last one. -/
def tourNext (st : SDKState) : SDKState :=
  match st.tour with
  | none => st
  | some i =>
    match st.sessions.get? i with
    | none => st
    | some sess =>
      match sess.current with
      | none => st
      | some c =>
        if c + 1 < sess.steps.length then
          { st with sessions := st.sessions.set i { sess with current := some (c + 1) } }
        else completeShepherd i st

/-- `stepComplete()` (src/src/core/tour.js lines 350-352). -/
def stepComplete (st : SDKState) : SDKState :=
  match st.tour with
  | some i =>
    (match st.sessions.get? i with
     | some sess => if sess.active then tourNext st else st
     | none => st)
  | none => st

/-- `isPaused()` (src/src/core/core.js line 142): `!!state.pausedSteps`. -/
def isPaused (st : SDKState) : Bool := st.pausedSteps.isSome

/-- `isActive()` (src/src/core/core.js line 145):
`!!(state.tour?.isActive())`. -/
def isActive (st : SDKState) : Bool :=
  match st.tour with
  | some i =>
    (match st.sessions.get? i with
     | some sess => sess.active
     | none => false)
  | none => false

/-! ## Claim theorems -/

/-- C1: for every AI-proposed step and registry feature with the same
id, when both the AI step's selector and the registry feature's
selector are present (truthy) and differ, the merged `TourStep`
produced by `mergeWithFeature` carries the registry feature's
selector, never the AI's — in both the modular and the monolithic
variant. -/
theorem c1_selector_authority
    (features : List Feature) (step : StepR) (feature : Feature) (fs ss : String)
    (hfind : findFeature features (step.parentId.orJs step.id) = some feature)
    (hfindMono : findFeature features step.id = some feature)
    (hfs : feature.selector = .str fs) (hfs0 : fs ≠ "")
    (hss : step.selector = .str ss) (hne : fs ≠ ss) :
    (mergeWithFeature (some features) step).selector = .str fs ∧
    (mergeWithFeature (some features) step).selector ≠ step.selector ∧
    (mergeWithFeatureMono (some features) step).selector = .str fs ∧
    (mergeWithFeatureMono (some features) step).selector ≠ step.selector := by
  have hsel : feature.selector.orJs step.selector = .str fs := by
    rw [hfs, JStr.orJs]
    simp [JStr.truthy, hfs0]
  have h1 : (mergeWithFeature (some features) step).selector = .str fs := by
    simp only [mergeWithFeature, hfind, mergeRecord]
    exact hsel
  have h2 : (mergeWithFeatureMono (some features) step).selector = .str fs := by
    simp only [mergeWithFeatureMono, hfindMono, mergeRecord]
    exact hsel
  refine ⟨h1, ?_, h2, ?_⟩
  · rw [h1, hss]
    intro hc
    exact hne (JStr.str.injEq fs ss ▸ hc)
  · rw [h2, hss]
    intro hc
    exact hne (JStr.str.injEq fs ss ▸ hc)

/-- Witness for C1 at a concrete step and feature. -/
theorem c1_selector_authority_witness :
    (mergeWithFeature (some [{ id := .str "f", selector := .str "#reg" }])
      { id := .str "f", selector := .str "#ai" }).selector = .str "#reg" :=
  (c1_selector_authority [{ id := .str "f", selector := .str "#reg" }]
    { id := .str "f", selector := .str "#ai" }
    { id := .str "f", selector := .str "#reg" } "#reg" "#ai"
    (by decide) (by decide) rfl (by decide) rfl (by decide)).1

/-- The concrete inputs on which the two merge implementations
disagree: a feature with a `route`, and a flow-expanded step carrying
`_parentId`. -/
def c10Feature : Feature := { id := .str "f", selector := .str "#a", route := .str "/a" }

/-- A plain AI step referencing `c10Feature`. -/
def c10Step : StepR := { id := .str "f", title := .str "T" }

/-- A flow-expanded step whose `_parentId` points back at `c10Feature`. -/
def c10FlowStep : StepR := { id := .str "f-flow-0", parentId := .str "f", selector := .str ".a" }

/-- C10 counterexample: the two duplicated merge implementations are
not extensionally equal.  On a plain step the modular variant fills
`route` from the feature while the monolithic one leaves it absent;
on a flow-expanded step the modular variant finds the feature via
`_parentId` (and overrides the selector) while the monolithic
variant's lookup by `id` fails and returns the step unchanged. -/
theorem c10_counterexample :
    mergeWithFeature (some [c10Feature]) c10Step ≠
      mergeWithFeatureMono (some [c10Feature]) c10Step ∧
    (mergeWithFeature (some [c10Feature]) c10Step).route = .str "/a" ∧
    (mergeWithFeatureMono (some [c10Feature]) c10Step).route = .undef ∧
    mergeWithFeature (some [c10Feature]) c10FlowStep ≠
      mergeWithFeatureMono (some [c10Feature]) c10FlowStep ∧
    (mergeWithFeature (some [c10Feature]) c10FlowStep).selector = .str "#a" ∧
    (mergeWithFeatureMono (some [c10Feature]) c10FlowStep).selector = .str ".a" := by
  decide

/-- C10 (amended): when a step has no truthy `_parentId` (so both
variants look up the same feature by `step.id`), the monolithic
variant's output is exactly the modular variant's output with the
`route` key left as it was on the step — i.e. the implementations
agree on every field except `route`, which only the modular variant
defaults from the feature. -/
theorem c10_merge_variants_agree_except_route
    (config : Option (List Feature)) (step : StepR)
    (h : step.parentId.orJs step.id = step.id) :
    mergeWithFeatureMono config step =
      { mergeWithFeature config step with route := step.route } := by
  cases config with
  | none => rfl
  | some features =>
    simp only [mergeWithFeature, mergeWithFeatureMono, h]
    cases hf : findFeature features step.id with
    | none => rfl
    | some feature => simp [mergeRecord]

/-- Witness for the amended C10 at a concrete step without `_parentId`. -/
theorem c10_merge_variants_agree_except_route_witness :
    mergeWithFeatureMono (some [c10Feature]) c10Step =
      { mergeWithFeature (some [c10Feature]) c10Step with route := c10Step.route } :=
  c10_merge_variants_agree_except_route (some [c10Feature]) c10Step (by decide)

/-- `expandEntries` produces one step per flow entry. -/
theorem expandEntries_length (a : StepR) (total : Nat) :
    ∀ (j : Nat) (l : List FlowEntry), (expandEntries a total j l).length = l.length := by
  intro j l
  induction l generalizing j with
  | nil => rfl
  | cons e rest ih => simp [expandEntries, ih]

/-- The step at position `i` of `expandEntries` starting at index `j`
is built from the flow entry at position `i` with index `j + i`. -/
theorem expandEntries_get? (a : StepR) (total : Nat) :
    ∀ (j i : Nat) (l : List FlowEntry),
      (expandEntries a total j l).get? i = (l.get? i).map (mkFlowStep a total (j + i)) := by
  intro j i l
  induction l generalizing j i with
  | nil => simp [expandEntries]
  | cons e rest ih =>
    cases i with
    | zero => simp [expandEntries]
    | succ i' =>
      simp only [expandEntries, List.get?_cons_succ, ih (j + 1) i']
      have : j + 1 + i' = j + (i' + 1) := by omega
      rw [this]

/-- C6: for a feature whose flow has length `N ≥ 1`, `expandFlowSteps`
returns exactly `N` steps; the first carries the AI step's title and
text verbatim; every step `i > 0` has the title
`title + " (i+1/N)"` (so it ends in `"(i+1/N)"`); every step carries
`_parentId = aiStep.id`, and its `selector`, `waitFor` and `advanceOn`
come from the corresponding flow entry (normalised by `|| null`).
A feature without a flow (absent, null, or empty array) returns the
AI step unchanged as a one-element list. -/
theorem c6_flow_expansion
    (aiStep : StepR) (feature : Feature) :
    (∀ (flow : List FlowEntry), feature.flow = .val flow → flow ≠ [] →
      (expandFlowSteps aiStep feature).length = flow.length ∧
      (∀ i entry, flow.get? i = some entry →
        ∃ e, (expandFlowSteps aiStep feature).get? i = some e ∧
          e.parentId = aiStep.id ∧
          e.selector = entry.selector.orNullJs ∧
          e.waitFor = entry.waitFor.orNullJs ∧
          e.advanceOn = entry.advanceOn.orNullJs ∧
          (i = 0 → e.title = aiStep.title ∧ e.text = aiStep.text) ∧
          (0 < i → e.title = .str (aiStep.title.render ++
            (" (" ++ toString (i + 1) ++ "/" ++ toString flow.length ++ ")"))))) ∧
    (feature.flow.truthy = false → expandFlowSteps aiStep feature = [aiStep]) ∧
    (feature.flow = .val [] → expandFlowSteps aiStep feature = [aiStep]) := by
  refine ⟨?_, ?_, ?_⟩
  · intro flow hflow hne
    have hexp : expandFlowSteps aiStep feature = expandEntries aiStep flow.length 0 flow := by
      simp [expandFlowSteps, hflow, List.isEmpty_iff, hne]
    constructor
    · rw [hexp, expandEntries_length]
    · intro i entry hentry
      refine ⟨mkFlowStep aiStep flow.length i entry, ?_, ?_, rfl, rfl, rfl, ?_, ?_⟩
      · rw [hexp, expandEntries_get? aiStep flow.length 0 i flow, hentry]
        simp
      · rfl
      · intro h0
        simp [mkFlowStep, h0]
      · intro h0
        have : ¬ (i = 0) := by omega
        simp only [mkFlowStep, if_neg this, JStr.str.injEq]
        simp [String.append_assoc]
  · intro htr
    cases hfl : feature.flow with
    | undef => simp [expandFlowSteps, hfl]
    | null => simp [expandFlowSteps, hfl]
    | val l => rw [hfl] at htr; simp [JVal.truthy] at htr
  · intro hfl
    simp [expandFlowSteps, hfl]

/-- Witness for C6 on a two-entry flow. -/
theorem c6_flow_expansion_witness :
    expandFlowSteps { id := .str "f", title := .str "Do X", text := .str "tx" }
      { id := .str "f", flow := .val [{ selector := .str ".a", waitFor := .undef, advanceOn := .undef },
        { selector := .str ".b", waitFor := .undef, advanceOn := .undef }] } ≠ [] ∧
    (expandFlowSteps { id := .str "f", title := .str "Do X", text := .str "tx" }
      { id := .str "f", flow := .val [{ selector := .str ".a", waitFor := .undef, advanceOn := .undef },
        { selector := .str ".b", waitFor := .undef, advanceOn := .undef }] }).length = 2 := by
  have h := (c6_flow_expansion { id := .str "f", title := .str "Do X", text := .str "tx" }
    { id := .str "f", flow := .val [{ selector := .str ".a", waitFor := .undef, advanceOn := .undef },
      { selector := .str ".b", waitFor := .undef, advanceOn := .undef }] }).1
    [{ selector := .str ".a", waitFor := .undef, advanceOn := .undef },
     { selector := .str ".b", waitFor := .undef, advanceOn := .undef }] rfl (by decide)
  refine ⟨?_, h.1⟩
  intro hc
  rw [hc] at h
  simp at h

/-- The route projection of `previewGo` is exactly the
first-occurrence deduplication of the referenced routes, seeded with
the already-seen set. -/
theorem previewGo_map_route (config : Option (List Feature)) :
    ∀ (aiSteps : List StepR) (seen : List String),
      (previewGo config seen aiSteps).map RoutePair.route =
        dedupKeepFirst seen (referencedRoutes config aiSteps) := by
  intro aiSteps
  induction aiSteps with
  | nil =>
    intro seen
    cases config <;> simp [previewGo, referencedRoutes, dedupKeepFirst]
  | cons step rest ih =>
    intro seen
    cases config with
    | none => simp [previewGo, referencedRoutes, List.filterMap_cons, ih]
    | some features =>
      cases hff : findFeature features step.id with
      | none =>
        simp only [previewGo, hff, referencedRoutes, List.filterMap_cons]
        simpa [referencedRoutes] using ih seen
      | some f =>
        cases hr : f.route with
        | undef =>
          simp only [previewGo, hff, hr, referencedRoutes, List.filterMap_cons]
          simpa [referencedRoutes] using ih seen
        | null =>
          simp only [previewGo, hff, hr, referencedRoutes, List.filterMap_cons]
          simpa [referencedRoutes] using ih seen
        | str r =>
          by_cases hempty : r = ""
          · simp only [previewGo, hff, hr, referencedRoutes, List.filterMap_cons, hempty]
            simpa [referencedRoutes] using ih seen
          · by_cases hseen : r ∈ seen
            · simp only [previewGo, hff, hr, referencedRoutes, List.filterMap_cons]
              rw [if_neg (by simp [hseen]), if_pos hempty]
              simp only [dedupKeepFirst, if_pos hseen]
              simpa [referencedRoutes] using ih seen
            · simp only [previewGo, hff, hr, referencedRoutes, List.filterMap_cons]
              rw [if_pos ⟨hempty, hseen⟩, if_pos hempty]
              simp only [dedupKeepFirst, if_neg hseen, List.map_cons]
              exact congrArg (r :: ·) (by simpa [referencedRoutes] using ih (r :: seen))

/-- The features of the C8 scenario: four features whose routes are
`/a`, `/b`, `/a`, `/c`. -/
def c8Features : List Feature :=
  [{ id := .str "fa", name := .str "A", route := .str "/a" },
   { id := .str "fb", name := .str "B", route := .str "/b" },
   { id := .str "fa2", name := .str "A2", route := .str "/a" },
   { id := .str "fc", name := .str "C", route := .str "/c" }]

/-- The AI steps of the C8 scenario, referencing routes
`[/a, /b, /a, /c]` in order. -/
def c8Steps : List StepR :=
  [{ id := .str "fa" }, { id := .str "fb" }, { id := .str "fa2" }, { id := .str "fc" }]

/-- C8: `previewRoutesNeeded` returns the referenced features'
route/featureName pairs in first-occurrence order, with duplicate
routes removed and the current route excluded (the route projection is
exactly `dedupKeepFirst` seeded with the current route); in
particular, for steps whose features have routes `[/a, /b, /a, /c]`
while the current route is `/a`, it returns the `/b` entry then the
`/c` entry. -/
theorem c8_route_plan_dedup_order :
    (∀ (config : Option (List Feature)) (currentRoute : String) (aiSteps : List StepR),
      (previewRoutesNeeded config currentRoute aiSteps).map RoutePair.route =
        dedupKeepFirst [currentRoute] (referencedRoutes config aiSteps)) ∧
    previewRoutesNeeded (some c8Features) "/a" c8Steps =
      [{ route := "/b", featureName := .str "B" }, { route := "/c", featureName := .str "C" }] := by
  constructor
  · intro config currentRoute aiSteps
    exact previewGo_map_route config aiSteps [currentRoute]
  · decide

/-- C9: `waitForElement` and `waitForRouteChange` always resolve and
never reject (the models are total and the promise executors bind only
`resolve`): each resolves immediately (at time 0, no warning) when its
condition already holds; resolves strictly before the timeout with no
warning when the condition becomes true in time (at a DOM mutation,
resp. at a 50 ms poll tick); and otherwise resolves exactly at the
timeout, after logging a warning. -/
theorem c9_waits_always_resolve
    (present : Nat → Bool) (pathname : Nat → String) (target : String) (timeout : Nat) :
    ((waitForElementModel present timeout).1 ≤ timeout ∧
      (waitForRouteChangeModel pathname target timeout).1 ≤ timeout) ∧
    (present 0 = true → waitForElementModel present timeout = (0, false)) ∧
    ((∃ t, t < timeout ∧ present t = true) →
      (waitForElementModel present timeout).2 = false ∧
      (waitForElementModel present timeout).1 < timeout ∧
      present (waitForElementModel present timeout).1 = true) ∧
    ((present 0 = false ∧ ∀ t, t < timeout → present t = false) →
      waitForElementModel present timeout = (timeout, true)) ∧
    (pathname 0 = target → waitForRouteChangeModel pathname target timeout = (0, false)) ∧
    ((∃ t, t < timeout ∧ 0 < t ∧ t % 50 = 0 ∧ pathname t = target) →
      (waitForRouteChangeModel pathname target timeout).2 = false ∧
      (waitForRouteChangeModel pathname target timeout).1 < timeout ∧
      pathname (waitForRouteChangeModel pathname target timeout).1 = target) ∧
    ((pathname 0 ≠ target ∧ ∀ t, t < timeout → ¬(0 < t ∧ t % 50 = 0 ∧ pathname t = target)) →
      waitForRouteChangeModel pathname target timeout = (timeout, true)) := by
  refine ⟨⟨?_, ?_⟩, ?_, ?_, ?_, ?_, ?_, ?_⟩
  · unfold waitForElementModel
    split
    · exact Nat.zero_le _
    · cases hfind : (List.range timeout).find? (fun t => present t) with
      | none => simp
      | some t =>
        have ht := List.mem_range.mp (List.mem_of_find?_eq_some hfind)
        simpa using Nat.le_of_lt ht
  · unfold waitForRouteChangeModel
    split
    · exact Nat.zero_le _
    · cases hfind : (List.range timeout).find? (fun t => 0 < t && t % 50 = 0 && pathname t = target) with
      | none => simp
      | some t =>
        have ht := List.mem_range.mp (List.mem_of_find?_eq_some hfind)
        simpa using Nat.le_of_lt ht
  · intro h0
    unfold waitForElementModel
    simp [h0]
  · rintro ⟨t, htlt, hpt⟩
    unfold waitForElementModel
    by_cases h0 : present 0 = true
    · have h0lt : 0 < timeout := Nat.lt_of_le_of_lt (Nat.zero_le t) htlt
      simp [h0, h0lt]
    · rw [if_neg (by simpa using h0)]
      cases hfind : (List.range timeout).find? (fun t => present t) with
      | none =>
        exfalso
        have := List.find?_eq_none.mp hfind t (List.mem_range.mpr htlt)
        simp [hpt] at this
      | some t' =>
        have hmem := List.mem_range.mp (List.mem_of_find?_eq_some hfind)
        have hp := List.find?_some hfind
        exact ⟨rfl, hmem, by simpa using hp⟩
  · rintro ⟨h0, hall⟩
    unfold waitForElementModel
    rw [if_neg (by simp [h0])]
    cases hfind : (List.range timeout).find? (fun t => present t) with
    | some t' =>
      have hmem := List.mem_range.mp (List.mem_of_find?_eq_some hfind)
      have hp := List.find?_some hfind
      rw [hall t' hmem] at hp
      exact absurd hp (by simp)
    | none => rfl
  · intro h0
    unfold waitForRouteChangeModel
    simp [h0]
  · rintro ⟨t, htlt, htpos, htmod, hpt⟩
    unfold waitForRouteChangeModel
    by_cases h0 : pathname 0 = target
    · have h0lt : 0 < timeout := Nat.lt_of_le_of_lt (Nat.zero_le t) htlt
      simp [h0, h0lt]
    · rw [if_neg h0]
      cases hfind : (List.range timeout).find? (fun t => 0 < t && t % 50 = 0 && pathname t = target) with
      | none =>
        exfalso
        have := List.find?_eq_none.mp hfind t (List.mem_range.mpr htlt)
        simp [htpos, htmod, hpt] at this
      | some t' =>
        have hmem := List.mem_range.mp (List.mem_of_find?_eq_some hfind)
        have hp := List.find?_some hfind
        refine ⟨rfl, hmem, ?_⟩
        simp only [Bool.and_eq_true, decide_eq_true_eq] at hp
        exact hp.2
  · rintro ⟨h0, hall⟩
    unfold waitForRouteChangeModel
    rw [if_neg h0]
    cases hfind : (List.range timeout).find? (fun t => 0 < t && t % 50 = 0 && pathname t = target) with
    | some t' =>
      have hmem := List.mem_range.mp (List.mem_of_find?_eq_some hfind)
      have hp := List.find?_some hfind
      simp only [Bool.and_eq_true, decide_eq_true_eq] at hp
      exact absurd ⟨hp.1.1, hp.1.2, hp.2⟩ (hall t' hmem)
    | none => rfl

/-- Witness for C9: an element appearing at t = 2 with timeout 4
resolves without warning; an element that never appears resolves at
the timeout with a warning; a route reached at the t = 50 poll tick
with timeout 60 resolves without warning. -/
theorem c9_waits_always_resolve_witness :
    (waitForElementModel (fun t => t == 2) 4).2 = false ∧
    waitForElementModel (fun _ => false) 3 = (3, true) ∧
    (waitForRouteChangeModel (fun t => if 50 ≤ t then "/x" else "/") "/x" 60).2 = false := by
  refine ⟨?_, ?_, ?_⟩
  · exact ((c9_waits_always_resolve (fun t => t == 2) (fun _ => "/") "/x" 4).2.2.1
      ⟨2, by decide, by decide⟩).1
  · exact (c9_waits_always_resolve (fun _ => false) (fun _ => "/") "/x" 3).2.2.2.1
      ⟨rfl, fun t _ => rfl⟩
  · exact ((c9_waits_always_resolve (fun t => t == 2)
      (fun t => if 50 ≤ t then "/x" else "/") "/x" 60).2.2.2.2.2.1
      ⟨50, by decide, by decide, by decide, by decide⟩).1

/-- C7: `parseAIResponse` on any input whose fence-stripped form does
not parse to JSON with a string `message` and an array `steps` fails
with exactly the message "AI returned an unreadable response. Please
try again." (and, being pure, touches no history); a failed provider
round-trip leaves the conversation history unchanged; a successful
`callAI` round-trip grows the history by exactly two entries, the
user turn then the assistant turn. -/
theorem c7_parse_failure_and_history
    (jsonParse : String → Option JsonVal) (raw : String)
    (provider : List ChatMsg → Except String ProviderResult)
    (messages : List ChatMsg) (u : String) :
    ((∀ p, jsonParse (stripFences raw) = some p → shapeOk p = false) →
      parseAIResponse jsonParse raw = .error unreadableMsg) ∧
    (∀ e, provider (messages ++ [⟨"user", u⟩]) = .error e →
      (callAI provider messages u).1 = messages) ∧
    (∀ r, provider (messages ++ [⟨"user", u⟩]) = .ok r →
      (callAI provider messages u).1 =
        messages ++ [⟨"user", u⟩, ⟨"assistant", r.message⟩]) := by
  refine ⟨?_, ?_, ?_⟩
  · intro hbad
    unfold parseAIResponse
    cases hp : jsonParse (stripFences raw) with
    | none => rfl
    | some p => simp [hbad p hp]
  · intro e he
    unfold callAI
    rw [he]
  · intro r hr
    unfold callAI
    rw [hr]

/-- Witness for C7: a non-JSON string fails with the exact user-safe
message; a rejecting provider leaves the two-turn history unchanged; a
resolving provider appends exactly the user and assistant turns. -/
theorem c7_parse_failure_and_history_witness :
    parseAIResponse (fun _ => none) "not json" = .error unreadableMsg ∧
    (callAI (fun _ => .error "boom") [⟨"user", "hi"⟩] "next").1 = [⟨"user", "hi"⟩] ∧
    (callAI (fun _ => .ok ⟨"ok", []⟩) [] "hello").1 =
      [⟨"user", "hello"⟩, ⟨"assistant", "ok"⟩] := by
  refine ⟨?_, ?_, ?_⟩
  · exact (c7_parse_failure_and_history (fun _ => none) "not json"
      (fun _ => .error "boom") [] "u").1 (fun p hp => by simp at hp)
  · exact (c7_parse_failure_and_history (fun _ => none) "x"
      (fun _ => .error "boom") [⟨"user", "hi"⟩] "next").2.1 "boom" rfl
  · exact (c7_parse_failure_and_history (fun _ => none) "x"
      (fun _ => .ok ⟨"ok", []⟩) [] "hello").2.2 ⟨"ok", []⟩ rfl


/-- `|| null` is idempotent on string-valued properties. -/
theorem JStr.orNullJs_idem (a : JStr) : a.orNullJs.orNullJs = a.orNullJs := by
  cases a with
  | undef => rfl
  | null => rfl
  | str s =>
    by_cases h : s = ""
    · subst h; rfl
    · simp [JStr.orNullJs, JStr.truthy, h]

/-- In the overwrite branch of `mapSet`, `find?` hits the replaced
pair. -/
theorem find?_mapSet_overwrite (k : String) (v : β) :
    ∀ (m : List (String × β)), m.any (fun p => p.1 == k) = true →
      List.find? (fun p => p.1 == k)
        (m.map (fun p => if p.1 == k then (k, v) else p)) = some (k, v) := by
  intro m
  induction m with
  | nil => intro h; simp at h
  | cons p ps ih =>
    intro hany
    by_cases hpk : (p.1 == k) = true
    · rw [List.map_cons, if_pos hpk, List.find?_cons_of_pos _ (by simp)]
    · rw [List.map_cons, if_neg hpk, List.find?_cons_of_neg _ (by simp [hpk])]
      apply ih
      simp only [List.any_cons, Bool.or_eq_true] at hany
      exact hany.resolve_left hpk

/-- In the append branch of `mapSet`, `find?` falls through to the new
pair. -/
theorem find?_mapSet_append (k : String) (v : β) :
    ∀ (m : List (String × β)), m.any (fun p => p.1 == k) = false →
      List.find? (fun p => p.1 == k) (m ++ [(k, v)]) = some (k, v) := by
  intro m
  induction m with
  | nil =>
    intro _
    rw [List.nil_append, List.find?_cons_of_pos _ (by simp)]
  | cons p ps ih =>
    intro hany
    rw [List.any_cons, Bool.or_eq_false_iff] at hany
    rw [List.cons_append, List.find?_cons_of_neg _ (by simp [hany.1])]
    exact ih hany.2

/-- After `mapSet`, looking the key up yields exactly the new value. -/
theorem mapGet_mapSet_self (m : List (String × β)) (k : String) (v : β) :
    mapGet (mapSet m k v) k = some v := by
  unfold mapSet mapGet
  split
  · rename_i hany
    rw [find?_mapSet_overwrite k v m hany]
    rfl
  · rename_i hany
    have hfalse : (m.any fun p => p.1 == k) = false := by
      cases h : m.any (fun p => p.1 == k) with
      | true => exact absurd h hany
      | false => rfl
    rw [find?_mapSet_append k v m hfalse]
    rfl

/-- The pair `(k, v)` is a member of `mapSet m k v`. -/
theorem mem_mapSet_self (m : List (String × β)) (k : String) (v : β) :
    (k, v) ∈ mapSet m k v := by
  unfold mapSet
  split
  · rename_i hany
    obtain ⟨p, hp, hpk⟩ := List.any_eq_true.mp hany
    refine List.mem_map.mpr ⟨p, hp, ?_⟩
    simp [hpk]
  · exact List.mem_append_right _ (List.mem_singleton.mpr rfl)

/-- After `mapDelete`, the key is gone. -/
theorem mapGet_mapDelete_self (m : List (String × β)) (k : String) :
    mapGet (mapDelete m k) k = none := by
  unfold mapGet mapDelete
  rw [Option.map_eq_none', List.find?_eq_none]
  intro p hp
  have h2 := (List.mem_filter.mp hp).2
  simp only [Bool.not_eq_true'] at h2
  simp [h2]

/-- C3: for every feature registered and then unregistered, the
registry's `snapshot()` afterwards still contains an entry with the
feature's id whose selector is null, whose ghost flag is true, and
whose name, description and route (normalised by the snapshot's
`|| null`) are preserved; registering the feature again afterwards
yields a snapshot entry for that id whose selector is restored (the
feature's selector, `|| null`-normalised) with the ghost flag
cleared. -/
theorem c3_registry_ghosting (reg : Registry) (f : FeatureInput) (now now2 : Nat) :
    (∃ e ∈ snapshot (unregisterFeature (registerFeature reg f now) f.id),
      e.id = f.id ∧ e.selector = .null ∧ e.ghost = true ∧
      e.name = f.name ∧ e.description = f.description ∧ e.route = f.route.orNullJs) ∧
    (∃ e ∈ snapshot (registerFeature (unregisterFeature (registerFeature reg f now) f.id) f now2),
      e.id = f.id ∧ e.selector = f.selector.orNullJs ∧ e.ghost = false ∧
      e.name = f.name ∧ e.description = f.description ∧ e.route = f.route.orNullJs) := by
  have hget : mapGet (registerFeature reg f now).features f.id =
      some { id := f.id, name := f.name, description := f.description, route := f.route,
             selector := f.selector, navigate := f.navigate,
             navigateWaitFor := f.navigateWaitFor, waitFor := f.waitFor,
             advanceOn := f.advanceOn, ghost := false, registeredAt := now } := by
    unfold registerFeature
    exact mapGet_mapSet_self _ _ _
  have hfeat : (unregisterFeature (registerFeature reg f now) f.id).features =
      mapSet (registerFeature reg f now).features f.id
        { id := f.id, name := f.name, description := f.description,
          route := f.route.orNullJs, navigate := f.navigate.orNullJs,
          navigateWaitFor := f.navigateWaitFor.orNullJs, registeredAt := now,
          selector := .null, advanceOn := .null, waitFor := .null, ghost := true } := by
    unfold unregisterFeature
    rw [hget]
  constructor
  · have hmem : ((f.id : String),
        ({ id := f.id, name := f.name, description := f.description,
           route := f.route.orNullJs, navigate := f.navigate.orNullJs,
           navigateWaitFor := f.navigateWaitFor.orNullJs, registeredAt := now,
           selector := .null, advanceOn := .null, waitFor := .null,
           ghost := true } : RegFeature)) ∈
        (unregisterFeature (registerFeature reg f now) f.id).features := by
      rw [hfeat]
      exact mem_mapSet_self _ _ _
    exact ⟨_, List.mem_map.mpr ⟨_, hmem, rfl⟩,
      rfl, rfl, rfl, rfl, rfl, JStr.orNullJs_idem f.route⟩
  · have hmem : ((f.id : String),
        ({ id := f.id, name := f.name, description := f.description, route := f.route,
           selector := f.selector, navigate := f.navigate,
           navigateWaitFor := f.navigateWaitFor, waitFor := f.waitFor,
           advanceOn := f.advanceOn, ghost := false, registeredAt := now2 } : RegFeature)) ∈
        (registerFeature (unregisterFeature (registerFeature reg f now) f.id) f now2).features := by
      unfold registerFeature
      exact mem_mapSet_self _ _ _
    exact ⟨_, List.mem_map.mpr ⟨_, hmem, rfl⟩, rfl, rfl, rfl, rfl, rfl, rfl⟩

/-- Evaluation of `runTour` when a presenter session is running: the
prior session is cancelled (its handler fires), all pending cleanups
run exactly once, and the new session is appended and started. -/
theorem runTour_eq_of_running
    (st : SDKState) (steps : List StepR) (hl : JStr) (i : Nat) (sess : Session)
    (htour : st.tour = some i) (hsess : st.sessions.get? i = some sess)
    (hsteps : steps.isEmpty = false) :
    runTour st steps hl =
      { config := st.config,
        sessions := (st.sessions.set i { sess with active := false, current := none }) ++
          [{ steps := buildExpandedSteps st.config hl steps, current := some 0, active := true }],
        tour := some st.sessions.length,
        pausedSteps := some sess.steps,
        pausedIndex := (max 0 (cancelIdx sess)).toNat,
        cleanups := (List.range ((buildExpandedSteps st.config hl steps).filter hasAuto).length).map
          (fun j => st.nextCleanupId + j),
        runLog := st.runLog ++ st.cleanups,
        nextCleanupId :=
          st.nextCleanupId + ((buildExpandedSteps st.config hl steps).filter hasAuto).length } := by
  unfold runTour cancelShepherd onCancel runAndClearCleanups wireCleanups
  rw [htour]
  simp only [hsess, hsteps, List.append_nil, List.nil_append, List.length_set, Bool.false_eq_true, if_false]

/-- Evaluation of `runTour` from an idle presenter (`state.tour` is
null): pending cleanups run once and the new session is appended. -/
theorem runTour_eq_of_idle
    (st : SDKState) (steps : List StepR) (hl : JStr)
    (htour : st.tour = none) (hsteps : steps.isEmpty = false) :
    runTour st steps hl =
      { config := st.config,
        sessions := st.sessions ++
          [{ steps := buildExpandedSteps st.config hl steps, current := some 0, active := true }],
        tour := some st.sessions.length,
        pausedSteps := st.pausedSteps,
        pausedIndex := st.pausedIndex,
        cleanups := (List.range ((buildExpandedSteps st.config hl steps).filter hasAuto).length).map
          (fun j => st.nextCleanupId + j),
        runLog := st.runLog ++ st.cleanups,
        nextCleanupId :=
          st.nextCleanupId + ((buildExpandedSteps st.config hl steps).filter hasAuto).length } := by
  unfold runTour runAndClearCleanups wireCleanups
  rw [htour]
  simp only [hsteps, List.nil_append, Bool.false_eq_true, if_false]

/-- C2: starting a new tour (`runTour` with a non-empty step list)
while another presenter session is running first cancels that session
and runs every one of its registered cleanup callbacks exactly once
(the run log is extended by exactly the pending cleanup list — once the
prior session's handler has run them, `runTour`'s own
`runAndClearCleanups` finds the list already empty), so afterwards
exactly one presenter tour session is active: the newly created one. -/
theorem c2_single_active_tour
    (st : SDKState) (steps : List StepR) (hl : JStr) (i : Nat) (sess : Session)
    (htour : st.tour = some i)
    (hsess : st.sessions.get? i = some sess)
    (hactive : sess.active = true)
    (honly : ∀ j s', st.sessions.get? j = some s' → s'.active = true → j = i)
    (hsteps : steps ≠ []) :
    (runTour st steps hl).runLog = st.runLog ++ st.cleanups ∧
    (∀ c, (runTour st steps hl).runLog.count c = st.runLog.count c + st.cleanups.count c) ∧
    (runTour st steps hl).sessions.get? i =
      some { sess with active := false, current := none } ∧
    (runTour st steps hl).tour = some st.sessions.length ∧
    (runTour st steps hl).sessions.get? st.sessions.length =
      some { steps := buildExpandedSteps st.config hl steps, current := some 0, active := true } ∧
    (∀ j s', (runTour st steps hl).sessions.get? j = some s' → s'.active = true →
      j = st.sessions.length) := by
  have hE : steps.isEmpty = false := by
    cases steps with
    | nil => exact absurd rfl hsteps
    | cons a l => rfl
  obtain ⟨hilt, -⟩ := List.get?_eq_some.mp hsess
  rw [runTour_eq_of_running st steps hl i sess htour hsess hE]
  refine ⟨rfl, ?_, ?_, rfl, ?_, ?_⟩
  · intro c
    simp [List.count_append]
  · rw [List.get?_append (by rwa [List.length_set]), List.get?_set_eq, hsess]
    rfl
  · rw [show st.sessions.length =
      (st.sessions.set i { sess with active := false, current := none }).length from
      (List.length_set st.sessions i _).symm]
    exact List.get?_concat_length _ _
  · intro j s' hj hact
    rcases Nat.lt_trichotomy j st.sessions.length with hlt | heq | hgt
    · rw [List.get?_append (by rwa [List.length_set])] at hj
      by_cases hji : j = i
      · subst hji
        rw [List.get?_set_eq, hsess] at hj
        simp only [Option.map_eq_map, Option.map_some'] at hj
        rw [← Option.some.inj hj] at hact
        exact absurd hact (by simp)
      · rw [List.get?_set_ne _ _ (Ne.symm hji)] at hj
        exact absurd (honly j s' hj hact) hji
    · exact heq
    · exfalso
      obtain ⟨hjlt, -⟩ := List.get?_eq_some.mp hj
      simp only [List.length_append, List.length_set, List.length_cons,
        List.length_nil] at hjlt
      omega


/-- The initial state of the C2 witness: one running one-step session
with one pending cleanup callback (id 7). -/
def c2wState : SDKState :=
  { config := none,
    sessions := [⟨[{ id := .str "a" }], some 0, true⟩],
    tour := some 0,
    pausedSteps := none,
    pausedIndex := 0,
    cleanups := [7],
    runLog := [],
    nextCleanupId := 0 }

/-- Witness for C2: starting a new one-step tour over `c2wState` runs
cleanup 7 exactly once and activates exactly the fresh session. -/
theorem c2_single_active_tour_witness :
    (runTour c2wState [{ id := .str "b" }] (.str "default")).runLog = [7] ∧
    (runTour c2wState [{ id := .str "b" }] (.str "default")).tour = some 1 := by
  have h := c2_single_active_tour c2wState [{ id := .str "b" }] (.str "default") 0
    ⟨[{ id := .str "a" }], some 0, true⟩ rfl rfl rfl
    (by
      intro j s' hj hact
      cases j with
      | zero => rfl
      | succ n => simp [c2wState] at hj)
    (by simp)
  exact ⟨h.1, h.2.2.2.1⟩

/-- The presenter steps of the active session, if any. -/
def activeSteps (st : SDKState) : Option (List StepR) :=
  st.tour.bind (fun i => (st.sessions.get? i).map (·.steps))

/-- The current step index of the active session, if any. -/
def activeCurrent (st : SDKState) : Option Nat :=
  st.tour.bind (fun i => (st.sessions.get? i).bind (·.current))

/-- A minimal running tour for the C4 evaluation: one step, no
features configured. -/
def c4Start : SDKState :=
  runTour {} [{ id := .str "s1", title := .str "T", text := .str "x" }] (.str "default")

/-- C4 evaluated at the failing input: `cancelTour()` clears the
snapshot first and only then calls `tour.cancel()`, whose synchronous
`cancel` handler stores a fresh paused snapshot — so after
`cancelTour()` returns on a running tour, a paused snapshot exists and
`isPaused()` is true, contradicting the claim (and `cancelTour`'s own
"clean up completely" contract).  Likewise `runTour` never clears an
existing snapshot, so starting a new tour while paused leaves
`isPaused()` true. -/
theorem c4_cancelTour_leaves_paused_snapshot :
    isActive c4Start = true ∧
    isPaused c4Start = false ∧
    isPaused (cancelTour c4Start) = true ∧
    (cancelTour c4Start).pausedSteps ≠ none ∧
    isActive (cancelTour c4Start) = false ∧
    isPaused (runTour (pressPause c4Start)
      [{ id := .str "s1", title := .str "T", text := .str "x" }] (.str "default")) = true := by
  decide

/-- `findIndex` by id recovers the exact position when the step ids
are pairwise distinct. -/
theorem findIdxJs_id_of_nodup :
    ∀ (l : List StepR) (k : Nat) (cur : StepR), l.get? k = some cur →
      (l.map StepR.id).Nodup → findIdxJs (fun s => s.id == cur.id) l = some k := by
  intro l
  induction l with
  | nil => intro k cur h; cases h
  | cons a l ih =>
    intro k cur hget hnodup
    cases k with
    | zero =>
      rw [List.get?_cons_zero] at hget
      rw [Option.some.inj hget]
      simp [findIdxJs]
    | succ k' =>
      rw [List.get?_cons_succ] at hget
      have hmem : cur.id ∈ l.map StepR.id :=
        List.mem_map.mpr ⟨cur, List.get?_eq_some.mp hget |>.2 ▸ List.get_mem _ _ _, rfl⟩
      have hne : a.id ≠ cur.id := by
        intro hc
        rw [List.map_cons, List.nodup_cons] at hnodup
        exact hnodup.1 (hc ▸ hmem)
      rw [findIdxJs, if_neg (by simp [hne]),
        ih k' cur hget ((List.map_cons StepR.id a l ▸ hnodup).of_cons)]
      rfl

/-- A pointwise-identity map is the identity. -/
theorem map_eq_self_of_eq {f : α → α} :
    ∀ (l : List α), (∀ x ∈ l, f x = x) → l.map f = l := by
  intro l
  induction l with
  | nil => intro _; rfl
  | cons a l ih =>
    intro h
    rw [List.map_cons, h a (List.mem_cons_self a l), ih (fun x hx => h x (List.mem_cons_of_mem a hx))]

/-- A pointwise-singleton flat map is the identity. -/
theorem flatMap_eq_self_of_singleton {g : α → List α} :
    ∀ (l : List α), (∀ x ∈ l, g x = [x]) → l.flatMap g = l := by
  intro l
  induction l with
  | nil => intro _; rfl
  | cons a l ih =>
    intro h
    rw [List.flatMap_cons, h a (List.mem_cons_self a l),
      ih (fun x hx => h x (List.mem_cons_of_mem a hx))]
    rfl

/-- C5 (amended): cancelling a running tour via the pause path at
current index `k` stores a paused snapshot of the expanded steps whose
resume index equals `k`, provided the expanded steps carry truthy,
pairwise-distinct ids (the handler recovers the index by searching for
the current Shepherd step's id); `resumeTour()` immediately afterwards
starts a tour whose step sequence equals the original expanded
sequence sliced from `k` onward, provided re-merging against the
(unchanged) registry and re-expansion leave those steps unchanged — as
holds for already-merged steps of features without flows under the
default highlight style.  (In general `runTour` re-merges the slice,
so flow-expanded steps get the feature's selector and the equality
fails; see the counterexample.) -/
theorem c5_pause_resume_roundtrip
    (st : SDKState) (i k : Nat) (sess : Session)
    (htour : st.tour = some i) (hsess : st.sessions.get? i = some sess)
    (hcur : sess.current = some k) (hk : k < sess.steps.length)
    (hids : (sess.steps.map StepR.id).Nodup)
    (htruthy : ∀ s ∈ sess.steps, s.id.truthy = true)
    (hstable : ∀ s ∈ sess.steps, processStep st.config (.str "default") s = s)
    (hexp : ∀ s ∈ sess.steps, expandAgainst st.config s = [s]) :
    (pressPause st).pausedSteps = some sess.steps ∧
    (pressPause st).pausedIndex = k ∧
    activeSteps (resumeTour (pressPause st)) = some (sess.steps.drop k) := by
  have hget : sess.steps.get? k = some (sess.steps.get ⟨k, hk⟩) := List.get?_eq_get hk
  have hsh : shepId (sess.steps.get ⟨k, hk⟩) k = (sess.steps.get ⟨k, hk⟩).id := by
    unfold shepId JStr.orJs
    rw [htruthy _ (List.get_mem _ _ _)]
    simp
  have hfind : findIdxJs (fun s => s.id == (sess.steps.get ⟨k, hk⟩).id) sess.steps = some k :=
    findIdxJs_id_of_nodup sess.steps k _ hget hids
  have hcidx : cancelIdx sess = (k : Int) := by
    unfold cancelIdx
    rw [hcur]
    simp only [hget, hsh, hfind]
  have htn : (max 0 ((k : Nat) : Int)).toNat = k := by omega
  have hpp : pressPause st =
      { config := st.config,
        sessions := st.sessions.set i { sess with active := false, current := none },
        tour := none,
        pausedSteps := some sess.steps,
        pausedIndex := k,
        cleanups := [],
        runLog := st.runLog ++ st.cleanups,
        nextCleanupId := st.nextCleanupId } := by
    unfold pressPause cancelShepherd onCancel runAndClearCleanups
    rw [htour]
    simp only [hsess, hcidx, htn]
  have hdropne : (sess.steps.drop k).isEmpty = false := by
    cases hd : sess.steps.drop k with
    | nil =>
      have hlen := List.length_drop k sess.steps
      rw [hd] at hlen
      simp at hlen
      omega
    | cons a l => rfl
  have hbuild : buildExpandedSteps st.config (.str "default") (sess.steps.drop k) =
      sess.steps.drop k := by
    unfold buildExpandedSteps
    rw [map_eq_self_of_eq _ (fun x hx => hstable x (List.mem_of_mem_drop hx)),
      flatMap_eq_self_of_singleton _ (fun x hx => hexp x (List.mem_of_mem_drop hx))]
  refine ⟨by rw [hpp], by rw [hpp], ?_⟩
  rw [hpp]
  unfold resumeTour
  simp only []
  rw [runTour_eq_of_idle _ _ _ rfl hdropne]
  unfold activeSteps
  simp only [Option.bind_eq_bind, Option.some_bind]
  rw [List.get?_concat_length, Option.map_some', hbuild]

/-- A feature with a two-entry flow and a truthy top-level selector. -/
def c5FlowFeature : Feature :=
  { id := .str "f", name := .str "F", selector := .str "#top",
    flow := .val [⟨.str ".a", .undef, .undef⟩, ⟨.str ".b", .undef, .undef⟩] }

/-- The AI step of the C5 counterexample. -/
def c5AiStep : StepR := { id := .str "f", title := .str "Do X", text := .str "t" }

/-- A tour over the flow feature, paused at step 0 and resumed. -/
def c5Run : SDKState := runTour { config := some [c5FlowFeature] } [c5AiStep] (.str "default")

/-- The paused state reached by clicking Pause on `c5Run`. -/
def c5Paused : SDKState := pressPause c5Run

/-- The state after resuming `c5Paused`. -/
def c5Resumed : SDKState := resumeTour c5Paused

/-- A feature without a flow, referenced twice by the same tour. -/
def c5DupFeature : Feature := { id := .str "g", name := .str "G", selector := .str "#g" }

/-- First AI step referencing `c5DupFeature`. -/
def c5DupStepA : StepR := { id := .str "g", title := .str "A", text := .str "a" }

/-- Second AI step referencing `c5DupFeature`. -/
def c5DupStepB : StepR := { id := .str "g", title := .str "B", text := .str "b" }

/-- A tour whose two expanded steps share the id `g`, advanced to
index 1. -/
def c5DupAdvanced : SDKState :=
  stepComplete (runTour { config := some [c5DupFeature] } [c5DupStepA, c5DupStepB] (.str "default"))

/-- The state after clicking Pause on `c5DupAdvanced`. -/
def c5DupPaused : SDKState := pressPause c5DupAdvanced

/-- C5 counterexample: the claim fails as stated on two concrete runs.
For the flow feature, pausing at index 0 and resuming starts a tour
whose step sequence differs from the original expanded sequence
(resume re-merges, so the feature's selector `#top` replaces the flow
entry's `.a`).  For the duplicated-id tour, cancelling while the
current step is at index 1 stores resume index 0, because the handler
finds the first step with the same id. -/
theorem c5_counterexample :
    c5Paused.pausedIndex = 0 ∧
    activeSteps c5Run ≠ none ∧
    activeSteps c5Resumed ≠ activeSteps c5Run ∧
    (activeSteps c5Resumed).map (List.map StepR.selector) = some [.str "#top", .str "#top"] ∧
    (activeSteps c5Run).map (List.map StepR.selector) = some [.str ".a", .str ".b"] ∧
    activeCurrent c5DupAdvanced = some 1 ∧
    c5DupPaused.pausedIndex = 0 := by
  decide

/-- First merge-stable step of the C5 witness tour. -/
def c5wStep1 : StepR := { id := .str "a", highlightStyle := .str "default" }

/-- Second merge-stable step of the C5 witness tour. -/
def c5wStep2 : StepR := { id := .str "b", highlightStyle := .str "default" }

/-- The C5 witness state: a running two-step session at index 1, with
an empty feature list so re-merging is the identity. -/
def c5wState : SDKState :=
  { config := some [],
    sessions := [⟨[c5wStep1, c5wStep2], some 1, true⟩],
    tour := some 0 }

/-- Witness for the amended C5: pausing at index 1 stores resume index
1 and resuming starts the tour on exactly the second step. -/
theorem c5_pause_resume_roundtrip_witness :
    (pressPause c5wState).pausedIndex = 1 ∧
    activeSteps (resumeTour (pressPause c5wState)) = some [c5wStep2] := by
  have h := c5_pause_resume_roundtrip c5wState 0 1 ⟨[c5wStep1, c5wStep2], some 1, true⟩
    rfl rfl rfl (by decide) (by decide) (by decide) (by decide) (by decide)
  exact ⟨h.2.1, h.2.2⟩
